import Mathlib

/-!
# Verification of the cw-metrics account batch pipeline

Shallow embedding of `src/main.rs` (a CLI that renders CloudWatch metric
widget images per account).  Rust side effects are made explicit:

* file reads (`std::fs::read_to_string`) become `Option String` inputs
  (`none` = unreadable file);
* panics (`unwrap`, `expect`, `todo!`, `panic!`) become the `RustResult.panic`
  (resp. `RunResult.panic`) constructor carrying the panic message;
* the CloudWatch client and filesystem writes become oracle functions in a
  `CloudEnv` record;
* the per-account `HashMap` of template parameters is modelled by its
  association list `templateParams` (insertion order) together with an
  explicit iteration order, quantified over permutations of that list,
  because `HashMap` iteration order is unspecified;
* wall-clock reads (`SystemTime::now`) become a `clock : Nat → Nat` oracle
  indexed by the iteration.
-/

/-- Rust's `AccountConfig` struct (fields `namespace`, `account_id`, `region`). -/
structure AccountConfig where
  «namespace» : String
  account_id : String
  region : String
deriving DecidableEq, Repr

/-- Rust's `AccountsConfig` struct: the list of `[[account]]` tables. -/
structure AccountsConfig where
  account : List AccountConfig
deriving DecidableEq, Repr

/-- Outcome of a Rust computation that can panic (`unwrap` / `expect` /
`panic!` / `todo!`); the `String` is the panic message. -/
inductive RustResult (α : Type) where
  | ok : α → RustResult α
  | panic : String → RustResult α
deriving DecidableEq, Repr

/-- Rust's `str::contains` for a literal (string) pattern: case-sensitive
substring containment. -/
def strContains (s pat : String) : Bool :=
  decide (pat.data <:+: s.data)

/-- `filter_accounts` from `src/main.rs`.  With a pattern it `unwrap`s the
accounts option and keeps the accounts whose `namespace` contains the
pattern; without a pattern it `expect`s the option and returns the full
list. -/
def filter_accounts (pattern : Option String) (accounts : Option AccountsConfig) :
    RustResult (List AccountConfig) :=
  match pattern with
  | some pat =>
    match accounts with
    | some cfg => .ok (cfg.account.filter (fun x => strContains x.«namespace» pat))
    | none => .panic "called Option::unwrap() on a None value"
  | none =>
    match accounts with
    | some cfg => .ok cfg.account
    | none => .panic "expected accounts to filter"

/-!
## Rust `str::replace`

`str::replace(pat, to)` scans left to right, replaces every non-overlapping
occurrence of `pat` with `to`, and continues after the end of the matched
occurrence in the original string (the replacement text is never rescanned).
An empty pattern matches at every position, including the end of the string.
The recursion consumes at least one character (or terminates) per step except
that the fuel argument makes it structurally recursive, hence kernel
evaluable; any fuel larger than the string length gives the same result. -/
def replaceFuel (k v : List Char) : Nat → List Char → List Char
  | 0, s => s
  | _ + 1, [] => if k = [] then v else []
  | fuel + 1, c :: rest =>
    if k ≠ [] ∧ k <+: c :: rest then
      v ++ replaceFuel k v fuel (List.drop k.length (c :: rest))
    else if k = [] then
      v ++ c :: replaceFuel k v fuel rest
    else
      c :: replaceFuel k v fuel rest

/-- `str::replace` on character lists (fuel instantiated sufficiently). -/
def replaceL (k v s : List Char) : List Char :=
  replaceFuel k v (s.length + 1) s

/-- Two patterns overlap when occurrences of them in some string could share
a character: one is an infix of the other, or a nonempty suffix of one is a
prefix of the other. -/
def Overlap (k1 k2 : List Char) : Prop :=
  k1 <:+: k2 ∨ k2 <:+: k1 ∨
    (∃ t ∈ k1.tails, t ≠ [] ∧ t <+: k2) ∨ (∃ t ∈ k2.tails, t ≠ [] ∧ t <+: k1)

instance (k1 k2 : List Char) : Decidable (Overlap k1 k2) := by
  unfold Overlap; infer_instance

/-- Simultaneous replacement of two patterns in a single left-to-right pass,
trying `k1` first at each position (fuel-indexed for kernel evaluation). -/
def replace2Fuel (k1 v1 k2 v2 : List Char) : Nat → List Char → List Char
  | 0, s => s
  | _ + 1, [] => []
  | fuel + 1, c :: rest =>
    if k1 ≠ [] ∧ k1 <+: c :: rest then
      v1 ++ replace2Fuel k1 v1 k2 v2 fuel (List.drop k1.length (c :: rest))
    else if k2 ≠ [] ∧ k2 <+: c :: rest then
      v2 ++ replace2Fuel k1 v1 k2 v2 fuel (List.drop k2.length (c :: rest))
    else
      c :: replace2Fuel k1 v1 k2 v2 fuel rest

def replace2 (k1 v1 k2 v2 s : List Char) : List Char :=
  replace2Fuel k1 v1 k2 v2 (s.length + 1) s

/-- Rust `s.replace(pat, repl)` on `String`. -/
def rustReplace (s pat repl : String) : String :=
  ⟨replaceL pat.data repl.data s.data⟩

/-- One pass of the source's `template_params.iter().for_each(|(k, v)|
replaced = replaced.replace(k, v))`: fold the replacements over the pairs in
the given iteration order. -/
def renderWith (order : List (String × String)) (text : String) : String :=
  order.foldl (fun acc kv => rustReplace acc kv.1 kv.2) text

/-- The contents of `template_params` in `get_metrics_json`, in insertion
order.  The `HashMap` iterates over exactly these pairs, but in an
unspecified order; theorems therefore quantify over permutations of this
list. -/
def templateParams (namespaceVal region start endv period : String) :
    List (String × String) :=
  [("{{NAMESPACE}}", namespaceVal), ("{{REGION}}", region),
   ("{{PERIOD_START}}", start), ("{{PERIOD_END}}", endv), ("{{PERIOD}}", period)]

/-- The five placeholder tokens of the template renderer. -/
def tokenKeys : List String :=
  ["{{NAMESPACE}}", "{{REGION}}", "{{PERIOD_START}}", "{{PERIOD_END}}", "{{PERIOD}}"]

/-- Every character that occurs in some placeholder token. -/
def tokenChars : List Char := "{}NAMESPCRGIOD_T".data

/-- A substitution value that cannot interact with the placeholder tokens:
nonempty and with no character drawn from the tokens' characters. -/
def goodValue (v : String) : Prop :=
  v.data ≠ [] ∧ ∀ c ∈ v.data, c ∉ tokenChars

instance (v : String) : Decidable (goodValue v) := by
  unfold goodValue; infer_instance

/-- `get_metrics_json` from `src/main.rs`: reads the template file (modelled
by its read result `template_file`), builds the placeholder map and replaces
every placeholder through it.  `order` is the iteration order of the
`HashMap`, a permutation of `templateParams region-namespace-... values`
supplied by the environment; the verbose printing is ignored. -/
def get_metrics_json (template_file : Option String)
    (order : List (String × String)) : Option String :=
  match template_file with
  | some contents => some (renderWith order contents)
  | none => none

/-!
## Output file naming

`cloudwatch_image_download` builds
`format!("{}-{}-{}-{}-{}", namespace, title, region, start, now_secs)` and
`get_metric_image` writes to `Path::new(name).with_extension("png")`.
Decimal rendering of the seconds counter is modelled by `natDec` (fuel-based
so it kernel-evaluates); `with_extension` is modelled for Unix-style paths
not ending in a separator: the file name is everything after the last `/`,
and its extension — replaced by `png` — is everything after the last `.`
unless that `.` is the leading character of the file name. -/
def digitChar10 (n : Nat) : Char :=
  if n = 0 then '0' else if n = 1 then '1' else if n = 2 then '2'
    else if n = 3 then '3' else if n = 4 then '4' else if n = 5 then '5'
    else if n = 6 then '6' else if n = 7 then '7' else if n = 8 then '8' else '9'

def natDecAux : Nat → Nat → List Char
  | 0, _ => []
  | fuel + 1, n =>
    if n < 10 then [digitChar10 n]
    else natDecAux fuel (n / 10) ++ [digitChar10 (n % 10)]

/-- Decimal rendering of a natural number (Rust `{}` formatting of `u64`). -/
def natDec (n : Nat) : String := ⟨natDecAux (n + 1) n⟩

/-- The file name built in `cloudwatch_image_download`:
`format!("{}-{}-{}-{}-{}", namespace, title, region, start, secs)`. -/
def saved_image_name (namespaceVal title region start : String) (secs : Nat) : String :=
  namespaceVal ++ "-" ++ title ++ "-" ++ region ++ "-" ++ start ++ "-" ++ natDec secs

/-- Split a list at the *last* occurrence of `c`: `some (before, after)`
with `l = before ++ c :: after` and `c ∉ after`; `none` when `c ∉ l`. -/
def splitLast (c : Char) : List Char → Option (List Char × List Char)
  | [] => none
  | x :: xs =>
    match splitLast c xs with
    | some (b, a) => some (x :: b, a)
    | none => if x = c then some ([], xs) else none

/-- Rust `Path::new(name).with_extension("png")` for a name without a
trailing separator. -/
def withExtPng (name : String) : String :=
  let l := name.data
  let dirFile : List Char × List Char :=
    match splitLast '/' l with
    | some (d, f) => (d ++ ['/'], f)
    | none => ([], l)
  let stem : List Char :=
    match splitLast '.' dirFile.2 with
    | some (b, _) => if b = [] then dirFile.2 else b
    | none => dirFile.2
  ⟨dirFile.1 ++ stem ++ ".png".data⟩

/-!
## Configuration loading

`get_accounts` reads the file, then `toml::from_str::<AccountsConfig>`
parses it; a parse/deserialization failure hits
`.expect("unable to parse as toml")` and panics.  The TOML parser is
modelled for the document family the `AccountsConfig` schema uses:
`[[account]]` array-of-tables headers, `[name]` table headers, bare
`key = value` lines with basic-string or integer values, blank lines and
`#` comments.  Constructs outside this subset (escape sequences, inline
tables, dotted keys, ...) are treated as parse errors; serde's behavior of
ignoring unknown top-level fields and requiring `account` to be an array of
tables with the three string fields is modelled in
`deserializeAccountsConfig`. -/
instance {ε α : Type} [DecidableEq ε] [DecidableEq α] : DecidableEq (Except ε α) :=
  fun x y =>
    match x, y with
    | .ok a, .ok b =>
      if h : a = b then isTrue (by rw [h])
      else isFalse (fun he => h (by injection he))
    | .error e, .error f =>
      if h : e = f then isTrue (by rw [h])
      else isFalse (fun he => h (by injection he))
    | .ok _, .error _ => isFalse (fun he => Except.noConfusion he)
    | .error _, .ok _ => isFalse (fun he => Except.noConfusion he)

inductive TomlValue where
  | vStr : String → TomlValue
  | vInt : Int → TomlValue
deriving DecidableEq, Repr

abbrev TomlTable := List (String × TomlValue)

inductive TomlLine where
  | blank
  | arrayHeader (name : String)
  | tableHeader (name : String)
  | kv (key : String) (val : TomlValue)
deriving DecidableEq, Repr

def isWsChar (c : Char) : Bool := c = ' ' || c = '\t' || c = '\r'

def splitLines : List Char → List (List Char)
  | [] => [[]]
  | c :: rest =>
    if c = '\n' then [] :: splitLines rest
    else
      match splitLines rest with
      | l :: ls => (c :: l) :: ls
      | [] => [[c]]

def trimChars (l : List Char) : List Char :=
  ((l.dropWhile isWsChar).reverse.dropWhile isWsChar).reverse

def isBareKeyChar (c : Char) : Bool := c.isAlphanum || c = '_' || c = '-'

/-- Split a list at the *first* occurrence of `c`. -/
def splitFirst (c : Char) : List Char → Option (List Char × List Char)
  | [] => none
  | x :: xs =>
    if x = c then some ([], xs)
    else
      match splitFirst c xs with
      | some (b, a) => some (x :: b, a)
      | none => none

def decodeDigits (l : List Char) : Nat :=
  l.foldl (fun acc c => acc * 10 + (c.toNat - '0'.toNat)) 0

def parseValue (l : List Char) : Except String TomlValue :=
  match l with
  | [] => .error "empty value"
  | c :: rest =>
    if c = '"' then
      match rest.reverse with
      | [] => .error "unterminated string"
      | q :: midRev =>
        if q = '"' && midRev.all (fun d => d != '"' && d != '\\') then
          .ok (.vStr ⟨midRev.reverse⟩)
        else .error "unsupported string"
    else if c = '-' then
      if rest ≠ [] ∧ rest.all Char.isDigit then .ok (.vInt (- (decodeDigits rest : Int)))
      else .error "unsupported value"
    else if (c :: rest).all Char.isDigit then .ok (.vInt (decodeDigits (c :: rest)))
    else .error "unsupported value"

def parseHeaderName (l : List Char) : Except String String :=
  let t := trimChars l
  if t ≠ [] ∧ t.all isBareKeyChar then .ok ⟨t⟩ else .error "invalid table name"

def parseLine (l : List Char) : Except String TomlLine :=
  match trimChars l with
  | [] => .ok .blank
  | c :: rest =>
    if c = '#' then .ok .blank
    else if c = '[' then
      match rest with
      | '[' :: rest2 =>
        match rest2.reverse with
        | ']' :: ']' :: nameRev =>
          match parseHeaderName nameRev.reverse with
          | .ok n => .ok (.arrayHeader n)
          | .error e => .error e
        | _ => .error "invalid array header"
      | _ =>
        match rest.reverse with
        | ']' :: nameRev =>
          match parseHeaderName nameRev.reverse with
          | .ok n => .ok (.tableHeader n)
          | .error e => .error e
        | _ => .error "invalid table header"
    else
      match splitFirst '=' (c :: rest) with
      | some (before, after) =>
        let key := trimChars before
        if key ≠ [] ∧ key.all isBareKeyChar then
          match parseValue (trimChars after) with
          | .ok v => .ok (.kv ⟨key⟩ v)
          | .error e => .error e
        else .error "invalid key"
      | none => .error "invalid line"

def parseLinesAll : List (List Char) → Except String (List TomlLine)
  | [] => .ok []
  | l :: ls =>
    match parseLine l with
    | .error e => .error e
    | .ok tl =>
      match parseLinesAll ls with
      | .error e => .error e
      | .ok tls => .ok (tl :: tls)

def tableInsert (t : TomlTable) (k : String) (v : TomlValue) :
    Except String TomlTable :=
  if t.any (fun p => p.1 == k) then .error "duplicate key"
  else .ok (t ++ [(k, v)])

def closeCur : Option (Bool × String × TomlTable) → List (Bool × String × TomlTable)
  | none => []
  | some b => [b]

/-- Fold the parsed lines into the top-level table and the ordered list of
`(is-array-of-tables, name, table)` blocks. -/
def buildDocAux (cur : Option (Bool × String × TomlTable)) (top : TomlTable)
    (acc : List (Bool × String × TomlTable)) :
    List TomlLine → Except String (TomlTable × List (Bool × String × TomlTable))
  | [] => .ok (top, acc ++ closeCur cur)
  | .blank :: r => buildDocAux cur top acc r
  | .kv k v :: r =>
    match cur with
    | none =>
      match tableInsert top k v with
      | .error e => .error e
      | .ok top' => buildDocAux none top' acc r
    | some (isArr, n, tbl) =>
      match tableInsert tbl k v with
      | .error e => .error e
      | .ok tbl' => buildDocAux (some (isArr, n, tbl')) top acc r
  | .arrayHeader n :: r => buildDocAux (some (true, n, [])) top (acc ++ closeCur cur) r
  | .tableHeader n :: r => buildDocAux (some (false, n, [])) top (acc ++ closeCur cur) r

def parseToml (s : String) :
    Except String (TomlTable × List (Bool × String × TomlTable)) :=
  match parseLinesAll (splitLines s.data) with
  | .error e => .error e
  | .ok lines => buildDocAux none [] [] lines

def getStrField (t : TomlTable) (k : String) : Except String String :=
  match List.lookup k t with
  | some (.vStr s) => .ok s
  | some _ => .error ("invalid type for field " ++ k)
  | none => .error ("missing field " ++ k)

/-- serde-derived deserialization of one `AccountConfig` table: the three
fields are required strings; unknown extra fields are ignored. -/
def deserializeAccount (t : TomlTable) : Except String AccountConfig :=
  match getStrField t "namespace" with
  | .error e => .error e
  | .ok ns =>
    match getStrField t "account_id" with
    | .error e => .error e
    | .ok aid =>
      match getStrField t "region" with
      | .error e => .error e
      | .ok rg => .ok ⟨ns, aid, rg⟩

def collectAccounts : List TomlTable → Except String (List AccountConfig)
  | [] => .ok []
  | t :: ts =>
    match deserializeAccount t with
    | .error e => .error e
    | .ok a =>
      match collectAccounts ts with
      | .error e => .error e
      | .ok rest => .ok (a :: rest)

/-- serde-derived deserialization of `AccountsConfig`: the `account` field
must exist and be an array of tables; every table must deserialize; other
top-level fields and tables are ignored. -/
def deserializeAccountsConfig (top : TomlTable)
    (blocks : List (Bool × String × TomlTable)) : Except String AccountsConfig :=
  if top.any (fun p => p.1 == "account") then .error "invalid type for field account"
  else if blocks.any (fun b => !b.1 && b.2.1 == "account") then
    .error "invalid type for field account"
  else
    let accTables := blocks.filterMap
      (fun b => if b.1 && b.2.1 == "account" then some b.2.2 else none)
    if accTables.isEmpty then .error "missing field account"
    else
      match collectAccounts accTables with
      | .error e => .error e
      | .ok l => .ok ⟨l⟩

/-- `toml::from_str::<AccountsConfig>` -/
def toml_from_str (s : String) : Except String AccountsConfig :=
  match parseToml s with
  | .error e => .error e
  | .ok (top, blocks) => deserializeAccountsConfig top blocks

/-- `get_accounts` from `src/main.rs`: `config_file` is the result of
`std::fs::read_to_string` (`none` = unreadable).  A read failure yields
`None`; a parse failure panics through
`.expect("unable to parse as toml")`; the verbose printing is ignored. -/
def get_accounts (config_file : Option String) : RustResult (Option AccountsConfig) :=
  match config_file with
  | some contents =>
    match toml_from_str contents with
    | .ok cfg => .ok (some cfg)
    | .error _ => .panic "unable to parse as toml"
  | none => .ok none

/-!
## The images batch pipeline

The `images` subcommand loop:
```
for acc in accounts {
    load_creds(&acc);
    let props = GetWidgetProps { ... };
    match cloudwatch_image_download(props).await { Ok/Err => println }
}
```
External effects are supplied by a `CloudEnv`: the template-file read
result, the CloudWatch `GetMetricWidgetImage` response (a function of the
client's region and the rendered widget JSON), the `fs::write` outcome per
path, the wall clock (whole seconds per iteration) and the `HashMap`
iteration order per iteration.  A `Trace` records the per-run observable
effects: image paths written, remote calls made, templates rendered. -/
structure GetWidgetProps where
  region : Option String
  app_name : String
  title : String
  verbose : Bool
  template_path : String
  start : String
  «end» : String
  period : String

structure Trace where
  saved : List String
  remoteCalls : Nat
  renders : Nat
deriving DecidableEq, Repr

def Trace.empty : Trace := ⟨[], 0, 0⟩

def Trace.app (t u : Trace) : Trace :=
  ⟨t.saved ++ u.saved, t.remoteCalls + u.remoteCalls, t.renders + u.renders⟩

/-- Outcome of a run: normal completion or an uncaught panic; either way the
`Trace` holds the effects performed before termination. -/
inductive RunResult where
  | ok (t : Trace)
  | panic (msg : String) (t : Trace)
deriving DecidableEq, Repr

structure CloudEnv where
  templateFile : Option String
  remote : Option String → String → Except String (Option (List Nat))
  write : String → Except String Unit
  clock : Nat → Nat
  order : Nat → List (String × String)

structure ImagesArgs where
  start : String
  «end» : String
  template_path : String
  period : String
  title : String
  pattern : Option String

/-- `load_creds` from `src/main.rs`: the body is `todo!()`, which panics
unconditionally with "not yet implemented". -/
def load_creds (_account : AccountConfig) : RustResult Unit :=
  .panic "not yet implemented"

/-- `get_metric_image` from `src/main.rs`: sends the request (`?` propagates
a remote error to the caller); a missing image in the response or a write
failure is only printed — the function still returns `Ok`.  Returns the
result together with the list (empty or singleton) of paths written. -/
def get_metric_image (remote : Option String → String → Except String (Option (List Nat)))
    (write : String → Except String Unit) (clientRegion : Option String)
    (metric_json saved_name : String) : Except String Unit × List String :=
  match remote clientRegion metric_json with
  | .error e => (.error e, [])
  | .ok none => (.ok (), [])
  | .ok (some _blob) =>
    let path := withExtPng saved_name
    match write path with
    | .ok _ => (.ok (), [path])
    | .error _ => (.ok (), [])

/-- `cloudwatch_image_download` from `src/main.rs`: renders the template
(`get_metrics_json`), panics if the template file could not be read, else
builds the timestamped image name and performs the request/persist step.
`idx` indexes this iteration's clock reading and map iteration order. -/
def cloudwatch_image_download (env : CloudEnv) (idx : Nat) (opts : GetWidgetProps) :
    RustResult (Except String Unit × Trace) :=
  let replaced_region := opts.region.getD "us-west-2"
  match get_metrics_json env.templateFile (env.order idx) with
  | some metrics =>
    let name := saved_image_name opts.app_name opts.title replaced_region opts.start
      (env.clock idx)
    let res := get_metric_image env.remote env.write opts.region metrics name
    .ok (res.1, ⟨res.2, 1, 1⟩)
  | none => .panic "unable to parse metrics json"

def mkProps (args : ImagesArgs) (acc : AccountConfig) : GetWidgetProps :=
  { title := args.title, region := some acc.region, app_name := acc.«namespace»,
    template_path := args.template_path, start := args.start, «end» := args.«end»,
    period := args.period, verbose := true }

/-- The `images` per-account loop, parameterized by the credential-loading
step it calls first in each iteration (the source calls `load_creds`).  The
`match` on the download result prints and continues either way; a panic
anywhere aborts the run with the effects accumulated so far. -/
def imagesLoopWith (creds : AccountConfig → RustResult Unit) (env : CloudEnv)
    (args : ImagesArgs) : List AccountConfig → Nat → RunResult
  | [], _ => .ok Trace.empty
  | acc :: rest, idx =>
    match creds acc with
    | .panic m => .panic m Trace.empty
    | .ok _ =>
      match cloudwatch_image_download env idx (mkProps args acc) with
      | .panic m => .panic m Trace.empty
      | .ok (_res, tr) =>
        match imagesLoopWith creds env args rest (idx + 1) with
        | .ok tr' => .ok (tr.app tr')
        | .panic m tr' => .panic m (tr.app tr')

/-- The `images` loop exactly as written: credentials via `load_creds`. -/
def imagesLoop (env : CloudEnv) (args : ImagesArgs)
    (accounts : List AccountConfig) : RunResult :=
  imagesLoopWith load_creds env args accounts 0

/-- The `images` subcommand: load accounts, filter, loop. -/
def images_run (env : CloudEnv) (args : ImagesArgs)
    (config_file : Option String) : RunResult :=
  match get_accounts config_file with
  | .panic m => .panic m Trace.empty
  | .ok accounts =>
    match filter_accounts args.pattern accounts with
    | .panic m => .panic m Trace.empty
    | .ok accs => imagesLoop env args accs

/-- The `config` subcommand: load accounts and filter (printing only). -/
def config_run (pattern : Option String) (config_file : Option String) :
    RustResult (List AccountConfig) :=
  match get_accounts config_file with
  | .panic m => .panic m
  | .ok accounts => filter_accounts pattern accounts

/-- A benign concrete environment used to witness the loop theorems. -/
def envW : CloudEnv :=
  { templateFile := some "region: {{REGION}}",
    remote := fun _ _ => .ok (some [137]),
    write := fun _ => .ok (),
    clock := fun i => 1000 + i,
    order := fun _ => templateParams "Foo" "us-east-1" "4320H" "0H" "3600" }

/-- The default `images` CLI arguments. -/
def argsW : ImagesArgs :=
  { start := "4320H", «end» := "0H", template_path := "t.json",
    period := "3600", title := "metric", pattern := none }

/-- An environment whose template file is unreadable. -/
def envNoTpl : CloudEnv :=
  { templateFile := none,
    remote := fun _ _ => .ok none,
    write := fun _ => .ok (),
    clock := fun _ => 0,
    order := fun _ => [] }

def acc1 : AccountConfig := ⟨"Foo", "111", "us-east-1"⟩

def acc2 : AccountConfig := ⟨"Bar", "222", "eu-west-1"⟩

def acc3 : AccountConfig := ⟨"Baz", "333", "us-west-2"⟩

/-- The 3-account failure-isolation scenario: the remote call fails for the
client configured with account 2's region and succeeds for the others. -/
def env3 : CloudEnv :=
  { templateFile := some "region: {{REGION}}",
    remote := fun r _ => if r = some "eu-west-1" then .error "Throttling" else .ok (some [137]),
    write := fun _ => .ok (),
    clock := fun i => 1000 + i,
    order := fun i =>
      if i = 0 then templateParams "Foo" "us-east-1" "4320H" "0H" "3600"
      else if i = 1 then templateParams "Bar" "eu-west-1" "4320H" "0H" "3600"
      else templateParams "Baz" "us-west-2" "4320H" "0H" "3600" }

theorem replaceFuel_congr (k v : List Char) :
    ∀ n m s, s.length < n → s.length < m → replaceFuel k v n s = replaceFuel k v m s := by
  intro n
  induction n with
  | zero => intro m s hn _; omega
  | succ n ih =>
    intro m s hn hm
    match m, hm with
    | m + 1, hm =>
      match s with
      | [] => rfl
      | c :: rest =>
        simp only [replaceFuel]
        by_cases h1 : k ≠ [] ∧ k <+: c :: rest
        · rw [if_pos h1, if_pos h1]
          have hkl : 0 < k.length := List.length_pos.mpr h1.1
          have hd : (List.drop k.length (c :: rest)).length < n := by
            rw [List.length_drop]
            simp only [List.length_cons] at hn ⊢
            omega
          have hd' : (List.drop k.length (c :: rest)).length < m := by
            rw [List.length_drop]
            simp only [List.length_cons] at hm ⊢
            omega
          rw [ih _ _ hd hd']
        · rw [if_neg h1, if_neg h1]
          by_cases h2 : k = []
          · rw [if_pos h2, if_pos h2]
            have hr : rest.length < n := by
              simp only [List.length_cons] at hn; omega
            have hr' : rest.length < m := by
              simp only [List.length_cons] at hm; omega
            rw [ih _ _ hr hr']
          · rw [if_neg h2, if_neg h2]
            have hr : rest.length < n := by
              simp only [List.length_cons] at hn; omega
            have hr' : rest.length < m := by
              simp only [List.length_cons] at hm; omega
            rw [ih _ _ hr hr']

theorem replaceL_nil (k v : List Char) :
    replaceL k v [] = if k = [] then v else [] := rfl

theorem replaceL_pos (k v : List Char) (c : Char) (t : List Char)
    (hk : k ≠ []) (h : k <+: c :: t) :
    replaceL k v (c :: t) = v ++ replaceL k v (List.drop k.length (c :: t)) := by
  have hkl : 0 < k.length := List.length_pos.mpr hk
  show replaceFuel k v ((c :: t).length + 1) (c :: t) = _
  simp only [List.length_cons, replaceFuel, if_pos (And.intro hk h)]
  congr 1
  apply replaceFuel_congr
  · rw [List.length_drop]; simp only [List.length_cons]; omega
  · omega

theorem replaceL_neg (k v : List Char) (c : Char) (t : List Char)
    (hk : k ≠ []) (h : ¬ k <+: c :: t) :
    replaceL k v (c :: t) = c :: replaceL k v t := by
  show replaceFuel k v ((c :: t).length + 1) (c :: t) = _
  have h1 : ¬ (k ≠ [] ∧ k <+: c :: t) := fun hc => h hc.2
  simp only [List.length_cons, replaceFuel, if_neg h1, if_neg hk]
  rfl

/-- General-form positive unfolding: a nonempty pattern that is a prefix is
replaced at the front. -/
theorem replaceL_pos' (k v s : List Char) (hk : k ≠ []) (h : k <+: s) :
    replaceL k v s = v ++ replaceL k v (List.drop k.length s) := by
  match s with
  | [] =>
    exact absurd (List.prefix_nil.mp h) hk
  | c :: t => exact replaceL_pos k v c t hk h

/-- Replacing a pattern that does not occur in the string is the identity. -/
theorem replaceL_no_occurrence (k v : List Char) (hk : k ≠ []) :
    ∀ s, ¬ k <:+: s → replaceL k v s = s := by
  intro s
  induction s with
  | nil => intro _; rw [replaceL_nil, if_neg hk]
  | cons c t ih =>
    intro h
    have hp : ¬ k <+: c :: t := fun hp => h hp.isInfix
    rw [replaceL_neg k v c t hk hp, ih (fun hi => h (List.infix_cons hi))]

/-- A block of characters foreign to the pattern passes through a
replacement untouched and does not interact with the tail. -/
theorem replaceL_alien_append (k v u x : List Char) (hk : k ≠ [])
    (halien : ∀ c ∈ u, c ∉ k) :
    replaceL k v (u ++ x) = u ++ replaceL k v x := by
  induction u with
  | nil => rfl
  | cons a u' ih =>
    have hp : ¬ k <+: a :: (u' ++ x) := by
      intro hp
      match k, hk with
      | b :: k', _ =>
        have hb : b = a := (List.cons_prefix_cons.mp hp).1
        exact halien a (List.mem_cons_self a u') (hb ▸ List.mem_cons_self b k')
    rw [List.cons_append, replaceL_neg k v a (u' ++ x) hk hp,
      ih (fun c hc => halien c (List.mem_cons_of_mem a hc)), List.cons_append]

/-- If a nonempty string whose characters are foreign to the replacement text
is a prefix of the replaced string, it already was a prefix of the original
(the replacement value being nonempty blocks reading across a replacement). -/
theorem prefix_of_prefix_replaceL (k v : List Char) (hk : k ≠ []) (hv : v ≠ []) :
    ∀ t w, w ≠ [] → (∀ c ∈ v, c ∉ w) → w <+: replaceL k v t → w <+: t := by
  intro t
  induction t with
  | nil =>
    intro w hw _ hpre
    rw [replaceL_nil, if_neg hk] at hpre
    exact absurd (List.prefix_nil.mp hpre) hw
  | cons c t' ih =>
    intro w hw hvw hpre
    by_cases hp : k <+: c :: t'
    · rw [replaceL_pos k v c t' hk hp] at hpre
      match v, hv with
      | d :: v', _ =>
        match w, hw with
        | e :: w', _ =>
          have hd : d = e := (List.cons_prefix_cons.mp hpre).1.symm
          exact absurd (hd ▸ List.mem_cons_self e w')
            (hvw d (List.mem_cons_self d v'))
    · rw [replaceL_neg k v c t' hk hp] at hpre
      match w, hw with
      | e :: w', _ =>
        obtain ⟨hec, hw'⟩ := List.cons_prefix_cons.mp hpre
        subst hec
        rcases eq_or_ne w' [] with h0 | h0
        · subst h0; exact List.cons_prefix_cons.mpr ⟨rfl, List.nil_prefix⟩
        · exact List.cons_prefix_cons.mpr
            ⟨rfl, ih w' h0 (fun c hc => fun hcw => hvw c hc (List.mem_cons_of_mem _ hcw)) hw'⟩

/-- If the pattern does not occur at any of the first `m` positions, the first
`m` characters pass through the replacement untouched. -/
theorem replaceL_skip (k v : List Char) :
    ∀ m s, (∀ j < m, ¬ k <+: List.drop j s) →
      replaceL k v s = List.take m s ++ replaceL k v (List.drop m s) := by
  intro m
  induction m with
  | zero => intro s _; simp
  | succ m ih =>
    intro s h
    match s with
    | [] => simp
    | c :: t =>
      have h0 : ¬ k <+: c :: t := by
        have := h 0 (Nat.succ_pos m)
        simpa using this
      have hk : k ≠ [] := fun he => h0 (he ▸ List.nil_prefix)
      have ht : ∀ j < m, ¬ k <+: List.drop j t := by
        intro j hj
        have := h (j + 1) (Nat.succ_lt_succ hj)
        simpa using this
      rw [replaceL_neg k v c t hk h0, ih t ht]
      simp

theorem overlap_symm {k1 k2 : List Char} (h : ¬ Overlap k1 k2) : ¬ Overlap k2 k1 := by
  intro h'
  apply h
  rcases h' with h' | h' | h' | h'
  · exact Or.inr (Or.inl h')
  · exact Or.inl h'
  · exact Or.inr (Or.inr (Or.inr h'))
  · exact Or.inr (Or.inr (Or.inl h'))

/-- Non-overlapping patterns: while an occurrence of `k2` sits at the front
of `s`, no occurrence of `k1` can start inside it. -/
theorem no_occurrence_inside (k1 k2 : List Char) (hov : ¬ Overlap k1 k2)
    (s : List Char) (hpre : k2 <+: s) :
    ∀ j < k2.length, ¬ k1 <+: List.drop j s := by
  intro j hj hk1
  obtain ⟨rest, hrest⟩ := hpre
  subst hrest
  rw [List.drop_append_of_le_length (Nat.le_of_lt hj)] at hk1
  have hd : List.drop j k2 ≠ [] := by
    intro he
    have := congrArg List.length he
    rw [List.length_drop] at this
    simp at this
    omega
  rcases le_or_lt k1.length (List.drop j k2).length with hle | hlt
  · have h1 : k1 <+: List.drop j k2 :=
      List.prefix_of_prefix_length_le hk1 (List.prefix_append _ _) hle
    exact hov (Or.inl (h1.isInfix.trans (List.drop_suffix j k2).isInfix))
  · have h2 : List.drop j k2 <+: k1 :=
      List.prefix_of_prefix_length_le (List.prefix_append _ _) hk1 (Nat.le_of_lt hlt)
    exact hov (Or.inr (Or.inr (Or.inr
      ⟨List.drop j k2, (List.mem_tails _ _).mpr (List.drop_suffix j k2), hd, h2⟩)))

theorem replace2Fuel_congr (k1 v1 k2 v2 : List Char) :
    ∀ n m s, s.length < n → s.length < m →
      replace2Fuel k1 v1 k2 v2 n s = replace2Fuel k1 v1 k2 v2 m s := by
  intro n
  induction n with
  | zero => intro m s hn _; omega
  | succ n ih =>
    intro m s hn hm
    match m, hm with
    | m + 1, hm =>
      match s with
      | [] => rfl
      | c :: rest =>
        simp only [replace2Fuel]
        by_cases h1 : k1 ≠ [] ∧ k1 <+: c :: rest
        · rw [if_pos h1, if_pos h1]
          have hkl : 0 < k1.length := List.length_pos.mpr h1.1
          congr 1
          apply ih <;>
            · rw [List.length_drop]
              simp only [List.length_cons] at hn hm ⊢
              omega
        · rw [if_neg h1, if_neg h1]
          by_cases h2 : k2 ≠ [] ∧ k2 <+: c :: rest
          · rw [if_pos h2, if_pos h2]
            have hkl : 0 < k2.length := List.length_pos.mpr h2.1
            congr 1
            apply ih <;>
              · rw [List.length_drop]
                simp only [List.length_cons] at hn hm ⊢
                omega
          · rw [if_neg h2, if_neg h2]
            congr 1
            apply ih <;>
              · simp only [List.length_cons] at hn hm
                omega

theorem replace2_nil (k1 v1 k2 v2 : List Char) : replace2 k1 v1 k2 v2 [] = [] := rfl

theorem replace2_pos1 (k1 v1 k2 v2 : List Char) (c : Char) (t : List Char)
    (hk : k1 ≠ []) (h : k1 <+: c :: t) :
    replace2 k1 v1 k2 v2 (c :: t) =
      v1 ++ replace2 k1 v1 k2 v2 (List.drop k1.length (c :: t)) := by
  have hkl : 0 < k1.length := List.length_pos.mpr hk
  show replace2Fuel k1 v1 k2 v2 ((c :: t).length + 1) (c :: t) = _
  simp only [List.length_cons, replace2Fuel, if_pos (And.intro hk h)]
  congr 1
  apply replace2Fuel_congr
  · rw [List.length_drop]; simp only [List.length_cons]; omega
  · omega

theorem replace2_pos2 (k1 v1 k2 v2 : List Char) (c : Char) (t : List Char)
    (h1 : ¬ k1 <+: c :: t) (hk : k2 ≠ []) (h : k2 <+: c :: t) :
    replace2 k1 v1 k2 v2 (c :: t) =
      v2 ++ replace2 k1 v1 k2 v2 (List.drop k2.length (c :: t)) := by
  have hkl : 0 < k2.length := List.length_pos.mpr hk
  have h1' : ¬ (k1 ≠ [] ∧ k1 <+: c :: t) := fun hc => h1 hc.2
  show replace2Fuel k1 v1 k2 v2 ((c :: t).length + 1) (c :: t) = _
  simp only [List.length_cons, replace2Fuel, if_neg h1', if_pos (And.intro hk h)]
  congr 1
  apply replace2Fuel_congr
  · rw [List.length_drop]; simp only [List.length_cons]; omega
  · omega

theorem replace2_neg (k1 v1 k2 v2 : List Char) (c : Char) (t : List Char)
    (h1 : ¬ k1 <+: c :: t) (h2 : ¬ k2 <+: c :: t) :
    replace2 k1 v1 k2 v2 (c :: t) = c :: replace2 k1 v1 k2 v2 t := by
  have h1' : ¬ (k1 ≠ [] ∧ k1 <+: c :: t) := fun hc => h1 hc.2
  have h2' : ¬ (k2 ≠ [] ∧ k2 <+: c :: t) := fun hc => h2 hc.2
  show replace2Fuel k1 v1 k2 v2 ((c :: t).length + 1) (c :: t) = _
  simp only [List.length_cons, replace2Fuel, if_neg h1', if_neg h2']
  rfl

/-- Sequentially replacing `k1` then `k2` equals the one-pass simultaneous
replacement, provided the patterns are nonempty and do not overlap and the
first replacement value is nonempty with characters foreign to `k2`. -/
theorem replaceL_replaceL_eq_replace2 (k1 v1 k2 v2 : List Char)
    (hk1 : k1 ≠ []) (hk2 : k2 ≠ []) (hv1 : v1 ≠ [])
    (halien : ∀ c ∈ v1, c ∉ k2) (hov : ¬ Overlap k1 k2) :
    ∀ n s, s.length ≤ n →
      replaceL k2 v2 (replaceL k1 v1 s) = replace2 k1 v1 k2 v2 s := by
  intro n
  induction n with
  | zero =>
    intro s hs
    have : s = [] := List.eq_nil_of_length_eq_zero (Nat.le_zero.mp hs)
    subst this
    rw [replaceL_nil, if_neg hk1, replaceL_nil, if_neg hk2, replace2_nil]
  | succ n ih =>
    intro s hs
    match s with
    | [] => rw [replaceL_nil, if_neg hk1, replaceL_nil, if_neg hk2, replace2_nil]
    | c :: t =>
      have hk1l : 0 < k1.length := List.length_pos.mpr hk1
      have hk2l : 0 < k2.length := List.length_pos.mpr hk2
      by_cases h1 : k1 <+: c :: t
      · have hbound : (List.drop k1.length (c :: t)).length ≤ n := by
          rw [List.length_drop]
          simp only [List.length_cons] at hs ⊢
          omega
        rw [replaceL_pos k1 v1 c t hk1 h1,
          replaceL_alien_append k2 v2 v1 _ hk2 halien, ih _ hbound,
          replace2_pos1 k1 v1 k2 v2 c t hk1 h1]
      · by_cases h2 : k2 <+: c :: t
        · have hno : ∀ j < k2.length, ¬ k1 <+: List.drop j (c :: t) :=
            no_occurrence_inside k1 k2 hov _ h2
          have hbound : (List.drop k2.length (c :: t)).length ≤ n := by
            rw [List.length_drop]
            simp only [List.length_cons] at hs ⊢
            omega
          rw [replaceL_skip k1 v1 k2.length (c :: t) hno,
            ← List.prefix_iff_eq_take.mp h2,
            replaceL_pos' k2 v2 _ hk2 (List.prefix_append _ _), List.drop_left,
            ih _ hbound, replace2_pos2 k1 v1 k2 v2 c t h1 hk2 h2]
        · have hq : ¬ k2 <+: c :: replaceL k1 v1 t := by
            intro hq
            match k2, hk2 with
            | e :: k2', _ =>
              obtain ⟨hec, hk2'⟩ := List.cons_prefix_cons.mp hq
              subst hec
              rcases eq_or_ne k2' [] with h0 | h0
              · subst h0
                exact h2 (List.cons_prefix_cons.mpr ⟨rfl, List.nil_prefix⟩)
              · have halien' : ∀ cc ∈ v1, cc ∉ k2' :=
                  fun cc hcc hmem => halien cc hcc (List.mem_cons_of_mem _ hmem)
                exact h2 (List.cons_prefix_cons.mpr
                  ⟨rfl, prefix_of_prefix_replaceL k1 v1 hk1 hv1 t k2' h0 halien' hk2'⟩)
          have hbound : t.length ≤ n := by
            simp only [List.length_cons] at hs; omega
          rw [replaceL_neg k1 v1 c t hk1 h1,
            replaceL_neg k2 v2 c (replaceL k1 v1 t) hk2 hq, ih t hbound,
            replace2_neg k1 v1 k2 v2 c t h1 h2]

/-- For non-overlapping patterns, at most one pattern matches at each
position, so the simultaneous replacement does not depend on which pattern
is tried first. -/
theorem replace2_symm (k1 v1 k2 v2 : List Char)
    (hk1 : k1 ≠ []) (hk2 : k2 ≠ []) (hov : ¬ Overlap k1 k2) :
    ∀ n s, s.length ≤ n → replace2 k1 v1 k2 v2 s = replace2 k2 v2 k1 v1 s := by
  intro n
  induction n with
  | zero =>
    intro s hs
    have : s = [] := List.eq_nil_of_length_eq_zero (Nat.le_zero.mp hs)
    subst this
    rw [replace2_nil, replace2_nil]
  | succ n ih =>
    intro s hs
    match s with
    | [] => rw [replace2_nil, replace2_nil]
    | c :: t =>
      have hk1l : 0 < k1.length := List.length_pos.mpr hk1
      have hk2l : 0 < k2.length := List.length_pos.mpr hk2
      by_cases h1 : k1 <+: c :: t
      · by_cases h2 : k2 <+: c :: t
        · exfalso
          rcases le_or_lt k1.length k2.length with hle | hlt
          · exact hov (Or.inl (List.prefix_of_prefix_length_le h1 h2 hle).isInfix)
          · exact hov (Or.inr (Or.inl
              (List.prefix_of_prefix_length_le h2 h1 (Nat.le_of_lt hlt)).isInfix))
        · have hbound : (List.drop k1.length (c :: t)).length ≤ n := by
            rw [List.length_drop]
            simp only [List.length_cons] at hs ⊢
            omega
          rw [replace2_pos1 k1 v1 k2 v2 c t hk1 h1,
            replace2_pos2 k2 v2 k1 v1 c t h2 hk1 h1, ih _ hbound]
      · by_cases h2 : k2 <+: c :: t
        · have hbound : (List.drop k2.length (c :: t)).length ≤ n := by
            rw [List.length_drop]
            simp only [List.length_cons] at hs ⊢
            omega
          rw [replace2_pos2 k1 v1 k2 v2 c t h1 hk2 h2,
            replace2_pos1 k2 v2 k1 v1 c t hk2 h2, ih _ hbound]
        · have hbound : t.length ≤ n := by
            simp only [List.length_cons] at hs; omega
          rw [replace2_neg k1 v1 k2 v2 c t h1 h2,
            replace2_neg k2 v2 k1 v1 c t h2 h1, ih t hbound]

/-- Commutation of two `str::replace` passes: nonempty, non-overlapping
patterns with nonempty replacement values whose characters are foreign to
the other pattern can be applied in either order. -/
theorem replaceL_comm (k1 v1 k2 v2 : List Char)
    (hk1 : k1 ≠ []) (hk2 : k2 ≠ []) (hv1 : v1 ≠ []) (hv2 : v2 ≠ [])
    (halien12 : ∀ c ∈ v1, c ∉ k2) (halien21 : ∀ c ∈ v2, c ∉ k1)
    (hov : ¬ Overlap k1 k2) (s : List Char) :
    replaceL k2 v2 (replaceL k1 v1 s) = replaceL k1 v1 (replaceL k2 v2 s) := by
  rw [replaceL_replaceL_eq_replace2 k1 v1 k2 v2 hk1 hk2 hv1 halien12 hov s.length s le_rfl,
    replace2_symm k1 v1 k2 v2 hk1 hk2 hov s.length s le_rfl,
    ← replaceL_replaceL_eq_replace2 k2 v2 k1 v1 hk2 hk1 hv2 halien21
      (overlap_symm hov) s.length s le_rfl]

theorem tokenKeys_nonempty : ∀ k ∈ tokenKeys, k.data ≠ [] := by decide

theorem tokenKeys_chars : ∀ k ∈ tokenKeys, ∀ c ∈ k.data, c ∈ tokenChars := by decide

theorem tokenKeys_no_overlap :
    ∀ k1 ∈ tokenKeys, ∀ k2 ∈ tokenKeys, k1 ≠ k2 → ¬ Overlap k1.data k2.data := by
  decide

/-- Two distinct placeholder replacements with good values commute. -/
theorem goodPairComm (k1 k2 v1 v2 : String)
    (h1 : k1 ∈ tokenKeys) (h2 : k2 ∈ tokenKeys) (hne : k1 ≠ k2)
    (hv1 : goodValue v1) (hv2 : goodValue v2) (s : String) :
    rustReplace (rustReplace s k1 v1) k2 v2 =
      rustReplace (rustReplace s k2 v2) k1 v1 := by
  have halien12 : ∀ c ∈ v1.data, c ∉ k2.data :=
    fun c hc hck => hv1.2 c hc (tokenKeys_chars k2 h2 c hck)
  have halien21 : ∀ c ∈ v2.data, c ∉ k1.data :=
    fun c hc hck => hv2.2 c hc (tokenKeys_chars k1 h1 c hck)
  unfold rustReplace
  exact congrArg String.mk
    (replaceL_comm k1.data v1.data k2.data v2.data
      (tokenKeys_nonempty k1 h1) (tokenKeys_nonempty k2 h2) hv1.1 hv2.1
      halien12 halien21 (tokenKeys_no_overlap k1 h1 k2 h2 hne) s.data)

/-- Any two pairs drawn from the template parameter map commute (they are
either the same pair or carry distinct placeholder keys). -/
theorem templateParams_pairComm (nv rv sv ev pv : String)
    (hns : goodValue nv) (hr : goodValue rv) (hst : goodValue sv)
    (hen : goodValue ev) (hpe : goodValue pv) :
    ∀ x ∈ templateParams nv rv sv ev pv, ∀ y ∈ templateParams nv rv sv ev pv,
      ∀ z : String,
        rustReplace (rustReplace z x.1 x.2) y.1 y.2 =
          rustReplace (rustReplace z y.1 y.2) x.1 x.2 := by
  intro x hx y hy z
  simp only [templateParams, List.mem_cons, List.not_mem_nil, or_false] at hx hy
  rcases hx with hx | hx | hx | hx | hx <;> rcases hy with hy | hy | hy | hy | hy <;>
    subst hx <;> subst hy <;> dsimp only <;>
    first
      | rfl
      | exact goodPairComm _ _ _ _ (by decide) (by decide) (by decide)
          (by assumption) (by assumption) z

/-- Folding the replacements over any iteration order of the template map
yields the same string, for good substitution values. -/
theorem renderWith_perm (nv rv sv ev pv : String)
    (hns : goodValue nv) (hr : goodValue rv) (hst : goodValue sv)
    (hen : goodValue ev) (hpe : goodValue pv)
    {o1 o2 : List (String × String)}
    (h1 : o1.Perm (templateParams nv rv sv ev pv))
    (h2 : o2.Perm (templateParams nv rv sv ev pv)) (text : String) :
    renderWith o1 text = renderWith o2 text := by
  have side := templateParams_pairComm nv rv sv ev pv hns hr hst hen hpe
  have e1 : renderWith o1 text = renderWith (templateParams nv rv sv ev pv) text := by
    refine List.Perm.foldl_eq' h1 ?_ text
    intro x hx y hy z
    exact side x (h1.mem_iff.mp hx) y (h1.mem_iff.mp hy) z
  have e2 : renderWith o2 text = renderWith (templateParams nv rv sv ev pv) text := by
    refine List.Perm.foldl_eq' h2 ?_ text
    intro x hx y hy z
    exact side x (h2.mem_iff.mp hx) y (h2.mem_iff.mp hy) z
  rw [e1, e2]

/-- Every key in the template parameter map is one of the five tokens. -/
theorem templateParams_key_mem {nv rv sv ev pv : String} {p : String × String}
    (hp : p ∈ templateParams nv rv sv ev pv) : p.1 ∈ tokenKeys := by
  simp only [templateParams, List.mem_cons, List.not_mem_nil, or_false] at hp
  rcases hp with hp | hp | hp | hp | hp <;> subst hp <;> dsimp only <;> decide

/-- If no key of the iteration order occurs in the text, the whole fold is
the identity. -/
theorem renderWith_id (order : List (String × String)) (text : String)
    (h : ∀ p ∈ order, ¬ (p.1.data <:+: text.data)) : renderWith order text = text := by
  induction order with
  | nil => rfl
  | cons p ps ih =>
    have hinf := h p (List.mem_cons_self p ps)
    have hk : p.1.data ≠ [] := by
      intro he
      exact hinf (he ▸ ⟨[], text.data, rfl⟩)
    have hfix : rustReplace text p.1 p.2 = text := by
      unfold rustReplace
      rw [replaceL_no_occurrence p.1.data p.2.data hk text.data hinf]
    show renderWith ps (rustReplace text p.1 p.2) = text
    rw [hfix]
    exact ih (fun q hq => h q (List.mem_cons_of_mem p hq))

/-- C6 (confirmed): the renderer replaces every occurrence of each mapped
token with that token's value and leaves all other text unchanged.  First
conjunct: text containing no known token (unknown `...` tokens included)
passes through unchanged, for any iteration order of any parameter map.
Second conjunct: in a template containing two occurrences of the region
token (plus a namespace token and an unknown token), both region occurrences
are replaced with the same supplied region value, the namespace token is
replaced, the unknown token passes through — for every iteration order. -/
theorem get_metrics_json_replaces_all :
    (∀ (text nv rv sv ev pv : String) (order : List (String × String)),
        order.Perm (templateParams nv rv sv ev pv) →
        (∀ k ∈ tokenKeys, ¬ (k.data <:+: text.data)) →
        get_metrics_json (some text) order = some text) ∧
    (∀ order : List (String × String),
        order.Perm (templateParams "cwagent" "us-west-2" "4320H" "0H" "3600") →
        get_metrics_json (some "a {{REGION}} b {{REGION}} c {{NAMESPACE}} d {{UNKNOWN}}") order =
          some "a us-west-2 b us-west-2 c cwagent d {{UNKNOWN}}") := by
  constructor
  · intro text nv rv sv ev pv order hperm htext
    show some (renderWith order text) = some text
    refine congrArg some (renderWith_id order text ?_)
    intro p hp
    exact htext p.1 (templateParams_key_mem (hperm.mem_iff.mp hp))
  · intro order hperm
    show some (renderWith order _) = _
    rw [renderWith_perm "cwagent" "us-west-2" "4320H" "0H" "3600"
      (by decide) (by decide) (by decide) (by decide) (by decide)
      hperm (List.Perm.refl _)]
    decide

theorem get_metrics_json_replaces_all_witness :
    get_metrics_json (some "hello") (templateParams "a" "b" "c" "d" "e") = some "hello" ∧
    get_metrics_json (some "a {{REGION}} b {{REGION}} c {{NAMESPACE}} d {{UNKNOWN}}")
        (templateParams "cwagent" "us-west-2" "4320H" "0H" "3600") =
      some "a us-west-2 b us-west-2 c cwagent d {{UNKNOWN}}" :=
  ⟨get_metrics_json_replaces_all.1 "hello" "a" "b" "c" "d" "e" _
      (List.Perm.refl _) (by decide),
   get_metrics_json_replaces_all.2 _ (List.Perm.refl _)⟩

/-- C3 (corrected, counterexample): the output of the renderer is *not*
independent of the `HashMap` iteration order for every assignment of values:
when the namespace value itself contains the region token, iterating
`NAMESPACE` before `REGION` rewrites the injected token while the opposite
order keeps it.  Both iteration orders below are permutations of the same
template parameter map. -/
theorem get_metrics_json_order_dependent_cex :
    ([("{{NAMESPACE}}", "{{REGION}}"), ("{{REGION}}", "X"),
      ("{{PERIOD_START}}", "4320H"), ("{{PERIOD_END}}", "0H"),
      ("{{PERIOD}}", "3600")] : List (String × String)).Perm
        (templateParams "{{REGION}}" "X" "4320H" "0H" "3600") ∧
    ([("{{REGION}}", "X"), ("{{NAMESPACE}}", "{{REGION}}"),
      ("{{PERIOD_START}}", "4320H"), ("{{PERIOD_END}}", "0H"),
      ("{{PERIOD}}", "3600")] : List (String × String)).Perm
        (templateParams "{{REGION}}" "X" "4320H" "0H" "3600") ∧
    get_metrics_json (some "{{NAMESPACE}}")
        [("{{NAMESPACE}}", "{{REGION}}"), ("{{REGION}}", "X"),
         ("{{PERIOD_START}}", "4320H"), ("{{PERIOD_END}}", "0H"),
         ("{{PERIOD}}", "3600")] ≠
      get_metrics_json (some "{{NAMESPACE}}")
        [("{{REGION}}", "X"), ("{{NAMESPACE}}", "{{REGION}}"),
         ("{{PERIOD_START}}", "4320H"), ("{{PERIOD_END}}", "0H"),
         ("{{PERIOD}}", "3600")] := by
  refine ⟨by decide, by decide, ?_⟩
  decide

/-- C3 (corrected, amended): the renderer is a deterministic function of
(template text, parameter values, iteration order), and whenever every
substitution value is nonempty and contains no character of any placeholder
token, the result is independent of the iteration order of the map. -/
theorem get_metrics_json_order_independent (text nv rv sv ev pv : String)
    (hns : goodValue nv) (hr : goodValue rv) (hst : goodValue sv)
    (hen : goodValue ev) (hpe : goodValue pv)
    {o1 o2 : List (String × String)}
    (h1 : o1.Perm (templateParams nv rv sv ev pv))
    (h2 : o2.Perm (templateParams nv rv sv ev pv)) :
    get_metrics_json (some text) o1 = get_metrics_json (some text) o2 :=
  congrArg some (renderWith_perm nv rv sv ev pv hns hr hst hen hpe h1 h2 text)

theorem get_metrics_json_order_independent_witness :
    get_metrics_json (some "ns {{NAMESPACE}} p {{PERIOD}}")
        (templateParams "cwagent" "us-west-2" "4320H" "0H" "3600") =
      get_metrics_json (some "ns {{NAMESPACE}} p {{PERIOD}}")
        [("{{PERIOD}}", "3600"), ("{{PERIOD_END}}", "0H"),
         ("{{PERIOD_START}}", "4320H"), ("{{REGION}}", "us-west-2"),
         ("{{NAMESPACE}}", "cwagent")] :=
  get_metrics_json_order_independent _ "cwagent" "us-west-2" "4320H" "0H" "3600"
    (by decide) (by decide) (by decide) (by decide) (by decide)
    (List.Perm.refl _) (by decide)

theorem natDecAux_congr : ∀ f g n, n < f → n < g → natDecAux f n = natDecAux g n := by
  intro f
  induction f with
  | zero => intro g n hf _; omega
  | succ f ih =>
    intro g n hf hg
    match g, hg with
    | g + 1, hg =>
      simp only [natDecAux]
      by_cases h10 : n < 10
      · rw [if_pos h10, if_pos h10]
      · rw [if_neg h10, if_neg h10]
        have hdiv : n / 10 < n := Nat.div_lt_self (by omega) (by omega)
        rw [ih g (n / 10) (by omega) (by omega)]

theorem natDecAux_ne_nil : ∀ f n, n < f → natDecAux f n ≠ [] := by
  intro f n hf
  match f, hf with
  | f + 1, _ =>
    simp only [natDecAux]
    by_cases h10 : n < 10
    · rw [if_pos h10]; simp
    · rw [if_neg h10]; simp

theorem digitChar10_mem_digits (n : Nat) :
    digitChar10 n ∈ ['0', '1', '2', '3', '4', '5', '6', '7', '8', '9'] := by
  unfold digitChar10
  split_ifs <;> decide

theorem natDecAux_digits :
    ∀ f n, ∀ c ∈ natDecAux f n, c ∈ ['0', '1', '2', '3', '4', '5', '6', '7', '8', '9'] := by
  intro f
  induction f with
  | zero => intro n c hc; simp [natDecAux] at hc
  | succ f ih =>
    intro n c hc
    simp only [natDecAux] at hc
    by_cases h10 : n < 10
    · rw [if_pos h10] at hc
      simp only [List.mem_singleton] at hc
      exact hc ▸ digitChar10_mem_digits n
    · rw [if_neg h10] at hc
      rcases List.mem_append.mp hc with hc | hc
      · exact ih (n / 10) c hc
      · simp only [List.mem_singleton] at hc
        exact hc ▸ digitChar10_mem_digits (n % 10)

theorem natDec_no_dot (n : Nat) : '.' ∉ (natDec n).data :=
  fun h => absurd (natDecAux_digits (n + 1) n '.' h) (by decide)

theorem digitChar10_inj : ∀ m < 10, ∀ n < 10, digitChar10 m = digitChar10 n → m = n := by
  decide

theorem natDecAux_inj :
    ∀ f g m n, m < f → n < g → natDecAux f m = natDecAux g n → m = n := by
  intro f
  induction f with
  | zero => intro g m n hf _ _; omega
  | succ f ih =>
    intro g m n hf hg h
    obtain ⟨g, rfl⟩ : ∃ g', g = g' + 1 := ⟨g - 1, by omega⟩
    · simp only [natDecAux] at h
      by_cases hm10 : m < 10 <;> by_cases hn10 : n < 10
      · rw [if_pos hm10, if_pos hn10] at h
        exact digitChar10_inj m hm10 n hn10 (List.singleton_inj.mp h)
      · rw [if_pos hm10, if_neg hn10] at h
        exfalso
        have hne := natDecAux_ne_nil g (n / 10)
          (by have := Nat.div_lt_self (show 0 < n by omega) (show 1 < 10 by omega); omega)
        have hlen := congrArg List.length h
        simp only [List.length_append, List.length_singleton] at hlen
        have : (natDecAux g (n / 10)).length = 0 := by omega
        exact hne (List.eq_nil_of_length_eq_zero this)
      · rw [if_neg hm10, if_pos hn10] at h
        exfalso
        have hne := natDecAux_ne_nil f (m / 10)
          (by have := Nat.div_lt_self (show 0 < m by omega) (show 1 < 10 by omega); omega)
        have hlen := congrArg List.length h
        simp only [List.length_append, List.length_singleton] at hlen
        have : (natDecAux f (m / 10)).length = 0 := by omega
        exact hne (List.eq_nil_of_length_eq_zero this)
      · rw [if_neg hm10, if_neg hn10] at h
        obtain ⟨hA, hd⟩ := List.append_inj' h (by simp)
        have hmod : m % 10 = n % 10 :=
          digitChar10_inj (m % 10) (by omega) (n % 10) (by omega)
            (List.singleton_inj.mp hd)
        have hdivm : m / 10 < f := by
          have := Nat.div_lt_self (show 0 < m by omega) (show 1 < 10 by omega)
          omega
        have hdivn : n / 10 < g := by
          have := Nat.div_lt_self (show 0 < n by omega) (show 1 < 10 by omega)
          omega
        have hdiv : m / 10 = n / 10 := ih g (m / 10) (n / 10) hdivm hdivn hA
        omega

theorem splitLast_eq_none_of_not_mem (c : Char) :
    ∀ l : List Char, c ∉ l → splitLast c l = none := by
  intro l
  induction l with
  | nil => intro _; rfl
  | cons x xs ih =>
    intro h
    have hx : x ≠ c := fun he => h (he ▸ List.mem_cons_self x xs)
    have hxs : c ∉ xs := fun hm => h (List.mem_cons_of_mem x hm)
    simp only [splitLast, ih hxs, if_neg hx]

theorem splitLast_none_not_mem (c : Char) :
    ∀ l : List Char, splitLast c l = none → c ∉ l := by
  intro l
  induction l with
  | nil => intro _ h; simp at h
  | cons x xs ih =>
    intro h
    simp only [splitLast] at h
    match hs : splitLast c xs with
    | some (b', a') => rw [hs] at h; exact absurd h (by simp)
    | none =>
      rw [hs] at h
      by_cases hx : x = c
      · rw [if_pos hx] at h; exact absurd h (by simp)
      · rw [if_neg hx] at h
        intro hmem
        rcases List.mem_cons.mp hmem with he | hm
        · exact hx he.symm
        · exact ih hs hm

theorem splitLast_some_spec (c : Char) :
    ∀ l b a, splitLast c l = some (b, a) → l = b ++ c :: a ∧ c ∉ a := by
  intro l
  induction l with
  | nil => intro b a h; simp [splitLast] at h
  | cons x xs ih =>
    intro b a h
    simp only [splitLast] at h
    match hs : splitLast c xs with
    | some (b', a') =>
      rw [hs] at h
      simp only [Option.some.injEq, Prod.mk.injEq] at h
      obtain ⟨hb, ha⟩ := h
      obtain ⟨he, hna⟩ := ih b' a' hs
      subst hb; subst ha
      exact ⟨by rw [List.cons_append, ← he], hna⟩
    | none =>
      rw [hs] at h
      dsimp only at h
      by_cases hx : x = c
      · rw [if_pos hx] at h
        simp only [Option.some.injEq, Prod.mk.injEq] at h
        obtain ⟨hb, ha⟩ := h
        subst hb; subst ha
        subst hx
        exact ⟨rfl, splitLast_none_not_mem x xs hs⟩
      · rw [if_neg hx] at h
        exact absurd h (by simp)

/-- On a name containing no `.`, `with_extension` simply appends `.png`. -/
theorem withExtPng_of_no_dot (name : String) (h : '.' ∉ name.data) :
    withExtPng name = name ++ ".png" := by
  apply String.ext
  rw [String.data_append]
  unfold withExtPng
  dsimp only
  match hsl : splitLast '/' name.data with
  | some (d, f) =>
    obtain ⟨he, _⟩ := splitLast_some_spec '/' name.data d f hsl
    have hf : '.' ∉ f := by
      intro hm
      exact h (he ▸ List.mem_append.mpr (Or.inr (List.mem_cons_of_mem _ hm)))
    dsimp only
    rw [splitLast_eq_none_of_not_mem '.' f hf]
    dsimp only
    rw [he]
    simp
  | none =>
    dsimp only
    rw [splitLast_eq_none_of_not_mem '.' name.data h]
    simp

theorem saved_image_name_data (nv title region start : String) (secs : Nat) :
    (saved_image_name nv title region start secs).data =
      nv.data ++ ("-".data ++ (title.data ++ ("-".data ++ (region.data ++
        ("-".data ++ (start.data ++ ("-".data ++ (natDec secs).data))))))) := by
  simp only [saved_image_name, String.data_append, List.append_assoc]

theorem saved_image_name_no_dot (nv title region start : String) (secs : Nat)
    (h1 : '.' ∉ nv.data) (h2 : '.' ∉ title.data)
    (h3 : '.' ∉ region.data) (h4 : '.' ∉ start.data) :
    '.' ∉ (saved_image_name nv title region start secs).data := by
  rw [saved_image_name_data]
  simp only [List.mem_append]
  intro hmem
  rcases hmem with h | h | h | h | h | h | h | h | h
  · exact h1 h
  · exact absurd h (by decide)
  · exact h2 h
  · exact absurd h (by decide)
  · exact h3 h
  · exact absurd h (by decide)
  · exact h4 h
  · exact absurd h (by decide)
  · exact natDec_no_dot secs h

/-- The seconds component is recoverable: identical other components and
equal names force equal seconds. -/
theorem saved_image_name_inj_secs (nv title region start : String) {s1 s2 : Nat}
    (h : saved_image_name nv title region start s1 =
      saved_image_name nv title region start s2) : s1 = s2 := by
  have hd := congrArg String.data h
  rw [saved_image_name_data, saved_image_name_data] at hd
  have e1 := List.append_cancel_left hd
  have e2 := List.append_cancel_left e1
  have e3 := List.append_cancel_left e2
  have e4 := List.append_cancel_left e3
  have e5 := List.append_cancel_left e4
  have e6 := List.append_cancel_left e5
  have e7 := List.append_cancel_left e6
  have e8 := List.append_cancel_left e7
  exact natDecAux_inj (s1 + 1) (s2 + 1) s1 s2 (Nat.lt_succ_self s1)
    (Nat.lt_succ_self s2) e8

/-- C7 (corrected, counterexample): two saves for identical
`(namespace, title, region, start)` can produce the *same* output path even
with different whole-second timestamps — a `.` inside a component makes
`with_extension("png")` cut the name at the last dot, discarding the
timestamp entirely (here both runs yield `"My.png"`). -/
theorem saved_image_name_collision_cex :
    withExtPng (saved_image_name "My.App" "metric" "us-east-1" "4320H" 100) =
      withExtPng (saved_image_name "My.App" "metric" "us-east-1" "4320H" 101) := by
  decide

/-- C7 (corrected, amended): two saves for identical
`(namespace, title, region, start)` produce distinct output paths provided
the two clock readings differ in whole seconds and no component contains a
`.` character (so the timestamp survives `with_extension`). -/
theorem saved_image_name_distinct (nv title region start : String) (s1 s2 : Nat)
    (hne : s1 ≠ s2)
    (h1 : '.' ∉ nv.data) (h2 : '.' ∉ title.data)
    (h3 : '.' ∉ region.data) (h4 : '.' ∉ start.data) :
    withExtPng (saved_image_name nv title region start s1) ≠
      withExtPng (saved_image_name nv title region start s2) := by
  intro heq
  rw [withExtPng_of_no_dot _ (saved_image_name_no_dot nv title region start s1 h1 h2 h3 h4),
    withExtPng_of_no_dot _ (saved_image_name_no_dot nv title region start s2 h1 h2 h3 h4)]
    at heq
  have hd := congrArg String.data heq
  rw [String.data_append, String.data_append] at hd
  have hnames := String.ext (List.append_cancel_right hd)
  exact hne (saved_image_name_inj_secs nv title region start hnames)

theorem saved_image_name_distinct_witness :
    withExtPng (saved_image_name "Foo" "metric" "us-east-1" "4320H" 100) ≠
      withExtPng (saved_image_name "Foo" "metric" "us-east-1" "4320H" 101) :=
  saved_image_name_distinct "Foo" "metric" "us-east-1" "4320H" 100 101
    (by decide) (by decide) (by decide) (by decide) (by decide)

theorem collectAccounts_error_of_mem (ts : List TomlTable) (t : TomlTable)
    (hmem : t ∈ ts) (herr : ∃ e, deserializeAccount t = .error e) :
    ∃ e, collectAccounts ts = .error e := by
  induction ts with
  | nil => exact absurd hmem (List.not_mem_nil t)
  | cons t' ts' ih =>
    match hd : deserializeAccount t' with
    | .error e => exact ⟨e, by simp [collectAccounts, hd]⟩
    | .ok a =>
      rcases List.mem_cons.mp hmem with he | hm
      · obtain ⟨e, he'⟩ := herr
        rw [he] at he'
        rw [he'] at hd
        exact absurd hd (by simp)
      · obtain ⟨e, he⟩ := ih hm
        exact ⟨e, by simp [collectAccounts, hd, he]⟩

/-- C8 (confirmed): a malformed configuration document is fatal.  First
conjunct: whenever `toml::from_str` fails — unparsable syntax, wrong type,
or missing field — `get_accounts` panics (aborting the run; no partial
account list is produced).  Second conjunct: a table in which one of the
required fields `namespace`, `account_id`, `region` is absent or not a
string fails to deserialize (never silently defaulted).  Third conjunct:
one bad `[[account]]` table anywhere in a parsed document makes the whole
load fail. -/
theorem malformed_config_fatal :
    (∀ s e, toml_from_str s = .error e →
      get_accounts (some s) = .panic "unable to parse as toml") ∧
    (∀ t : TomlTable,
      (∃ k ∈ ["namespace", "account_id", "region"],
        ∀ s, List.lookup k t ≠ some (.vStr s)) →
      ∃ e, deserializeAccount t = .error e) ∧
    (∀ s top blocks t, parseToml s = .ok (top, blocks) →
      (true, "account", t) ∈ blocks →
      (∃ e, deserializeAccount t = .error e) →
      ∃ e, toml_from_str s = .error e) := by
  refine ⟨?_, ?_, ?_⟩
  · intro s e h
    unfold get_accounts
    dsimp only
    rw [h]
  · intro t ⟨k, hk, hval⟩
    have hfield : ∀ kf : String, (∀ s, List.lookup kf t ≠ some (.vStr s)) →
        ∃ e, getStrField t kf = .error e := by
      intro kf hv
      unfold getStrField
      match hl : List.lookup kf t with
      | none => exact ⟨_, rfl⟩
      | some (.vStr s) => exact absurd hl (hv s)
      | some (.vInt n) => exact ⟨_, rfl⟩
    unfold deserializeAccount
    simp only [List.mem_cons, List.not_mem_nil, or_false] at hk
    rcases hk with hk | hk | hk <;> subst hk
    · obtain ⟨e, he⟩ := hfield "namespace" hval
      rw [he]
      exact ⟨e, rfl⟩
    · match h1 : getStrField t "namespace" with
      | .error e => exact ⟨e, rfl⟩
      | .ok ns =>
        obtain ⟨e, he⟩ := hfield "account_id" hval
        rw [he]
        exact ⟨e, rfl⟩
    · match h1 : getStrField t "namespace" with
      | .error e => exact ⟨e, rfl⟩
      | .ok ns =>
        match h2 : getStrField t "account_id" with
        | .error e => exact ⟨e, rfl⟩
        | .ok aid =>
          obtain ⟨e, he⟩ := hfield "region" hval
          rw [he]
          exact ⟨e, rfl⟩
  · intro s top blocks t hp hmem hde
    unfold toml_from_str
    rw [hp]
    dsimp only
    unfold deserializeAccountsConfig
    by_cases h1 : top.any (fun p => p.1 == "account")
    · rw [if_pos h1]; exact ⟨_, rfl⟩
    · rw [if_neg h1]
      by_cases h2 : blocks.any (fun b => !b.1 && b.2.1 == "account")
      · rw [if_pos h2]; exact ⟨_, rfl⟩
      · rw [if_neg h2]
        have hacc : t ∈ blocks.filterMap
            (fun b => if b.1 && b.2.1 == "account" then some b.2.2 else none) :=
          List.mem_filterMap.mpr ⟨(true, "account", t), hmem, by simp⟩
        have hne : ¬ (blocks.filterMap
            (fun b => if b.1 && b.2.1 == "account" then some b.2.2 else none)).isEmpty := by
          rw [List.isEmpty_iff]
          exact List.ne_nil_of_mem hacc
        rw [if_neg (by simpa using hne)]
        obtain ⟨e, he⟩ := collectAccounts_error_of_mem _ t hacc hde
        rw [he]
        exact ⟨e, rfl⟩

theorem malformed_config_fatal_witness :
    get_accounts (some "account = 1") = .panic "unable to parse as toml" ∧
    (∃ e, deserializeAccount [("namespace", TomlValue.vStr "Foo")] = .error e) ∧
    (∃ e, toml_from_str "[[account]]\nnamespace = \"Foo\"\n" = .error e) :=
  ⟨malformed_config_fatal.1 "account = 1" "invalid type for field account" (by decide),
   malformed_config_fatal.2.1 [("namespace", TomlValue.vStr "Foo")]
     ⟨"region", by decide, fun s h => by simp [List.lookup] at h⟩,
   malformed_config_fatal.2.2 "[[account]]\nnamespace = \"Foo\"\n" []
     [(true, "account", [("namespace", TomlValue.vStr "Foo")])]
     [("namespace", TomlValue.vStr "Foo")] (by decide) (by decide)
     ⟨"missing field account_id", by decide⟩⟩

/-- C4 (confirmed): filtering with an absent pattern returns the full
account list unchanged — same elements, same original order. -/
theorem filter_accounts_none_eq (cfg : AccountsConfig) :
    filter_accounts none (some cfg) = .ok cfg.account := rfl

/-- C5 (confirmed): with a present pattern `p` the filter returns exactly the
subsequence (original order preserved, hence a `Sublist`) of the accounts
whose namespace contains `p` as a case-sensitive substring: every kept
element's namespace contains `p`, every element whose namespace contains `p`
is kept, and the call never panics (an empty result is an ordinary value). -/
theorem filter_accounts_some_spec (pat : String) (cfg : AccountsConfig) :
    ∃ l, filter_accounts (some pat) (some cfg) = .ok l ∧
      l.Sublist cfg.account ∧
      (∀ x ∈ l, strContains x.«namespace» pat = true) ∧
      (∀ x ∈ cfg.account, strContains x.«namespace» pat = true → x ∈ l) := by
  refine ⟨cfg.account.filter (fun x => strContains x.«namespace» pat), rfl, ?_, ?_, ?_⟩
  · exact List.filter_sublist cfg.account
  · intro x hx
    exact (List.mem_filter.mp hx).2
  · intro x hx hc
    exact List.mem_filter.mpr ⟨hx, hc⟩

/-- C2 (confirmed): for every `images` invocation with a non-empty filtered
account list, processing of the very first account panics at the
`load_creds` (`todo!()`) step before any template rendering, remote request
or image save occurs: no account of any batch reaches the `ImageSaved` or
`Failed` terminal state (the trace is empty). -/
theorem images_loop_panics_on_first_account (env : CloudEnv) (args : ImagesArgs)
    (accounts : List AccountConfig) (h : accounts ≠ []) :
    imagesLoop env args accounts = .panic "not yet implemented" Trace.empty := by
  match accounts, h with
  | acc :: rest, _ => rfl

theorem images_loop_panics_on_first_account_witness :
    (([acc1] : List AccountConfig) ≠ []) ∧
    imagesLoop envW argsW [acc1] = .panic "not yet implemented" Trace.empty :=
  ⟨by decide, images_loop_panics_on_first_account envW argsW [acc1] (by decide)⟩

theorem cloudwatch_download_no_template (env : CloudEnv) (idx : Nat)
    (opts : GetWidgetProps) (h : env.templateFile = none) :
    cloudwatch_image_download env idx opts = .panic "unable to parse metrics json" := by
  unfold cloudwatch_image_download
  rw [h]
  rfl

/-- C10 (confirmed): when the widget-template file is missing or unreadable,
the per-account download step panics (first conjunct), and inside the loop
this panic is not caught by the download-result `match`: any iteration that
reaches the download step (its credential step returning normally) aborts
the whole run, leaving every remaining account unprocessed (second
conjunct). -/
theorem missing_template_panics :
    (∀ (env : CloudEnv) (idx : Nat) (opts : GetWidgetProps),
      env.templateFile = none →
      cloudwatch_image_download env idx opts = .panic "unable to parse metrics json") ∧
    (∀ (creds : AccountConfig → RustResult Unit) (env : CloudEnv) (args : ImagesArgs)
        (acc : AccountConfig) (rest : List AccountConfig) (idx : Nat),
      env.templateFile = none → creds acc = .ok () →
      imagesLoopWith creds env args (acc :: rest) idx =
        .panic "unable to parse metrics json" Trace.empty) := by
  constructor
  · exact cloudwatch_download_no_template
  · intro creds env args acc rest idx h hc
    unfold imagesLoopWith
    rw [hc, cloudwatch_download_no_template env idx (mkProps args acc) h]

theorem missing_template_panics_witness :
    cloudwatch_image_download envNoTpl 0 (mkProps argsW acc1) =
      .panic "unable to parse metrics json" ∧
    imagesLoopWith (fun _ => .ok ()) envNoTpl argsW [acc1, acc2] 0 =
      .panic "unable to parse metrics json" Trace.empty :=
  ⟨missing_template_panics.1 envNoTpl 0 (mkProps argsW acc1) rfl,
   missing_template_panics.2 (fun _ => .ok ()) envNoTpl argsW acc1 [acc2] 0 rfl rfl⟩

/-- C1 (corrected, counterexample): in a batch of 3 accounts where account
2's remote call fails, the loop as written does *not* process accounts 1
and 3: it panics at account 1's `load_creds` step, performs zero remote
calls and saves zero images. -/
theorem images_loop_isolation_cex :
    imagesLoop env3 argsW [acc1, acc2, acc3] =
      .panic "not yet implemented" Trace.empty := rfl

/-- C1 (corrected, amended): the download-result `match` in the loop body
does isolate per-account remote failures — with any credential step that
returns normally, the 3-account batch in which account 2's remote call
fails still processes all three accounts (three renders, three remote
calls) and saves exactly the images of accounts 1 and 3 — but the actual
loop never reaches it: `load_creds` panics on the first account, so no
account is processed and nothing is saved (see the counterexample). -/
theorem images_loop_isolation_amended
    (creds : AccountConfig → RustResult Unit) (h : ∀ a, creds a = .ok ()) :
    imagesLoopWith creds env3 argsW [acc1, acc2, acc3] 0 =
      .ok ⟨["Foo-metric-us-east-1-4320H-1000.png",
            "Baz-metric-us-west-2-4320H-1002.png"], 3, 3⟩ := by
  simp only [imagesLoopWith, h]
  decide

theorem images_loop_isolation_amended_witness :
    imagesLoopWith (fun _ => .ok ()) env3 argsW [acc1, acc2, acc3] 0 =
      .ok ⟨["Foo-metric-us-east-1-4320H-1000.png",
            "Baz-metric-us-west-2-4320H-1002.png"], 3, 3⟩ :=
  images_loop_isolation_amended (fun _ => .ok ()) (fun _ => rfl)

/-- C9 (corrected, counterexample): with an unreadable configuration file,
both the `config` and the `images` commands crash: `filter_accounts`
panics on the `None` accounts instead of treating it as "no accounts". -/
theorem unreadable_config_crash_cex :
    config_run none none = .panic "expected accounts to filter" ∧
    images_run envW argsW none = .panic "expected accounts to filter" Trace.empty :=
  ⟨rfl, rfl⟩

/-- C9 (corrected, amended): when the configuration file cannot be read,
`get_accounts` itself returns the not-found outcome (`none`) without
aborting; but the `images`/`config` commands do *not* treat it as "no
accounts": `filter_accounts` panics on it (with either pattern mode), so
both commands crash. -/
theorem get_accounts_not_found_amended :
    (get_accounts none = .ok none) ∧
    (∀ pat : Option String, ∃ m, filter_accounts pat none = .panic m) ∧
    (∀ pat : Option String, ∃ m, config_run pat none = .panic m) ∧
    (∀ (env : CloudEnv) (args : ImagesArgs), ∃ m,
      images_run env args none = .panic m Trace.empty) := by
  refine ⟨rfl, ?_, ?_, ?_⟩
  · intro pat
    cases pat with
    | none => exact ⟨_, rfl⟩
    | some p => exact ⟨_, rfl⟩
  · intro pat
    cases pat with
    | none => exact ⟨_, rfl⟩
    | some p => exact ⟨_, rfl⟩
  · intro env args
    unfold images_run
    cases hpat : args.pattern with
    | none => exact ⟨_, rfl⟩
    | some p => exact ⟨_, rfl⟩
